import Mathlib

/-!
bk-iam policy core: a verification development

Shallow embedding of the policy decision / retrieval core of bk-iam
(PDP entrance, PRP policy CRUD cache invalidation, expression translation,
subject effective set, renewal monotonicity), with theorems settling the
claims C1 to C10 of its specification.
-/

namespace BkIam

/-- A scalar JSON-ish value appearing in expression cells. -/
inductive Scalar where
  | s (v : String)
  | i (v : Int)
  | b (v : Bool)
deriving DecidableEq, Repr

/-- The `value` slot of a leaf `ExprCell`: Go stores either a scalar
(`eq`-style leaves) or a list (`in`/`any`-style leaves). -/
inductive CellValue where
  | scalar (v : Scalar)
  | list (vs : List Scalar)
deriving DecidableEq, Repr

/-- Public expression tree produced by the translator
(`ExprCell` in `pkg/abac/pdp/translate`): a leaf `{op, field, value}` or a
composite `{op: AND|OR, content}`. -/
inductive ExprCell where
  | leaf (op field : String) (value : CellValue)
  | node (op : String) (content : List ExprCell)
deriving Repr

mutual

def ExprCell.deq : (a b : ExprCell) → Decidable (a = b)
  | .leaf o1 f1 v1, .leaf o2 f2 v2 =>
    match String.decEq o1 o2 with
    | isFalse h => isFalse (by intro hc; cases hc; exact h rfl)
    | isTrue h1 =>
      match String.decEq f1 f2 with
      | isFalse h => isFalse (by intro hc; cases hc; exact h rfl)
      | isTrue h2 =>
        match decEq v1 v2 with
        | isFalse h => isFalse (by intro hc; cases hc; exact h rfl)
        | isTrue h3 => isTrue (by rw [h1, h2, h3])
  | .leaf _ _ _, .node _ _ => isFalse (fun h => ExprCell.noConfusion h)
  | .node _ _, .leaf _ _ _ => isFalse (fun h => ExprCell.noConfusion h)
  | .node o1 c1, .node o2 c2 =>
    match String.decEq o1 o2 with
    | isFalse h => isFalse (by intro hc; cases hc; exact h rfl)
    | isTrue h1 =>
      match ExprCell.deqList c1 c2 with
      | isFalse h => isFalse (by intro hc; cases hc; exact h rfl)
      | isTrue h2 => isTrue (by rw [h1, h2])

def ExprCell.deqList : (a b : List ExprCell) → Decidable (a = b)
  | [], [] => isTrue rfl
  | [], _ :: _ => isFalse (fun h => List.noConfusion h)
  | _ :: _, [] => isFalse (fun h => List.noConfusion h)
  | a :: as, b :: bs =>
    match ExprCell.deq a b with
    | isFalse h => isFalse (by intro hc; cases hc; exact h rfl)
    | isTrue h1 =>
      match ExprCell.deqList as bs with
      | isFalse h => isFalse (by intro hc; cases hc; exact h rfl)
      | isTrue h2 => isTrue (by rw [h1, h2])

end

instance : DecidableEq ExprCell := ExprCell.deq

instance : DecidableEq (List ExprCell) := ExprCell.deqList

/-! ## mergeContentField (pkg/abac/pdp/translate)

Modelled from the spec: the body of `translate.mergeContentField` is not
among the provided sources; only its unit tests
(`expression_test.go`, `Describe("mergeContentField")`) are.  The model
follows the spec's description — leaves with op `eq`/`in` sharing a `field`
are collapsed into one `in` leaf whose value list concatenates the values in
input order — and reproduces every input/output pair of the unit tests,
which pin the placement the spec's tie-break sentence contradicts: the
Go code buckets mergeable leaves into a map keyed by field while copying
non-mergeable cells into the output, then appends one cell per bucket, so
merged leaves come after the non-mergeable cells.  Go map iteration order
is unspecified; the model fixes the deterministic first-occurrence order of
the fields. -/

/-- A cell the merge can absorb: a leaf whose op is `eq` or `in`
(composite `AND`/`OR` cells and other leaf ops are copied unchanged). -/
def ExprCell.mergeable : ExprCell → Bool
  | .leaf op _ _ => op == "eq" || op == "in"
  | .node _ _ => false

/-- The `field` slot of a cell (composites carry no field). -/
def ExprCell.fieldOf : ExprCell → String
  | .leaf _ f _ => f
  | .node _ _ => ""

/-- The value list a mergeable cell contributes to a merged `in` leaf:
an `eq` leaf contributes its scalar value as one element, an `in` leaf
spreads its value list. -/
def ExprCell.cellValues : ExprCell → List Scalar
  | .leaf op _ v =>
    if op == "in" then
      match v with
      | .list l => l
      | .scalar s => [s]
    else
      match v with
      | .scalar s => [s]
      | .list l => l
  | .node _ _ => []

/-- Insert a mergeable cell into the bucket for its field, keeping buckets
in first-occurrence order of field and cells in input order. -/
def insertBucket (f : String) (e : ExprCell) :
    List (String × List ExprCell) → List (String × List ExprCell)
  | [] => [(f, [e])]
  | (g, es) :: rest =>
    if g = f then (g, es ++ [e]) :: rest else (g, es) :: insertBucket f e rest

/-- One step of the first pass: non-mergeable cells go to the output list,
mergeable cells go to their field's bucket. -/
def collectStep (acc : List ExprCell × List (String × List ExprCell)) (e : ExprCell) :
    List ExprCell × List (String × List ExprCell) :=
  if e.mergeable then (acc.1, insertBucket e.fieldOf e acc.2)
  else (acc.1 ++ [e], acc.2)

/-- The bucket-only view of `collectStep`. -/
def bucketStep (bk : List (String × List ExprCell)) (e : ExprCell) :
    List (String × List ExprCell) :=
  if e.mergeable then insertBucket e.fieldOf e bk else bk

/-- Emit one bucket: a single cell is emitted unchanged, two or more are
collapsed into one `in` leaf concatenating their values in input order. -/
def mergeGroup (f : String) : List ExprCell → ExprCell
  | [e] => e
  | es => .leaf "in" f (.list (es.flatMap ExprCell.cellValues))

/-- Go `translate.mergeContentField`: within one OR's content, collapse leaves
sharing a field with op `eq`/`in`; non-mergeable cells first in original
order, then one cell per field. -/
def mergeContentField (content : List ExprCell) : List ExprCell :=
  let r := content.foldl collectStep ([], [])
  r.1 ++ r.2.map (fun p => mergeGroup p.1 p.2)

/-! ### A declarative characterization of the merge -/

/-- First-occurrence deduplication, written with a `seen` accumulator. -/
def firstDedupAux [DecidableEq α] (seen : List α) : List α → List α
  | [] => []
  | x :: xs =>
    if x ∈ seen then firstDedupAux seen xs
    else x :: firstDedupAux (x :: seen) xs

/-- Deduplicate a list keeping the first occurrence of each element. -/
def firstDedup [DecidableEq α] (l : List α) : List α :=
  firstDedupAux [] l

/-- The fields of the mergeable cells of a content list, in input order. -/
def mergeFields (l : List ExprCell) : List String :=
  (l.filter ExprCell.mergeable).map ExprCell.fieldOf

/-- The mergeable cells of a content list carrying field `f`, in input
order. -/
def mergeablesField (f : String) (l : List ExprCell) : List ExprCell :=
  l.filter (fun e => e.mergeable && e.fieldOf == f)

/-- The declarative form of the merge: non-mergeable cells in original
order, then one cell per distinct field in first-occurrence order, each
collapsing that field's mergeable cells in input order. -/
def specMerge (content : List ExprCell) : List ExprCell :=
  content.filter (fun e => !e.mergeable) ++
    (firstDedup (mergeFields content)).map
      (fun f => mergeGroup f (mergeablesField f content))

/-! ## PDP entrance (pkg/abac/pdp: Eval / Query / QueryAuthPolicies)

From `attribute_getter.go`'s pdp part and `policy_curd.go`'s pdp part
(`queryPolicies`, `filterPoliciesByEvalResources`, `queryFilterPolicies`).
Service call outcomes are environment fields; `evalP r p` abstracts
`evaluation.FilterPolicies`'s per-policy verdict (policy `p`'s parsed
expression evaluated against resource `r`'s context). -/

inductive PDPError where
  | noPolicies
  | invalidAction
  | invalidActionResource
  | subjectNotExists
  | remoteResourceFail
  | storageFail
  | translateFail
deriving DecidableEq, Repr

/-- Outcome of a PIP detail lookup: found, `sql.ErrNoRows`, or another
storage error. -/
inductive LookupOutcome where
  | found
  | notFound
  | err
deriving DecidableEq, Repr

/-- The per-resource filtering fold of `filterPoliciesByEvalResources`:
filter the surviving policies on each sorted resource in turn, raising
`ErrNoPolicies` as soon as the survivors become empty. -/
def filterPoliciesFold (evalP : ρ → α → Bool) :
    List ρ → List α → Except PDPError (List α)
  | [], ps => .ok ps
  | r :: rs, ps =>
    let surviving := ps.filter (evalP r)
    if surviving.isEmpty then .error .noPolicies
    else filterPoliciesFold evalP rs surviving

/-- Go `filterPoliciesByEvalResources` (policy_curd.go pdp part, lines
572-610): fill remote resource attributes when the request has remote
resources (`remoteFails` is true when that fill fails), then fold the
filter over the sorted resources. -/
def filterPoliciesByEvalResources (remoteFails : Bool) (evalP : ρ → α → Bool)
    (resources : List ρ) (policies : List α) : Except PDPError (List α) :=
  if remoteFails then .error .remoteResourceFail
  else filterPoliciesFold evalP resources policies

/-- The surviving policies of the pure repeated filter (no error signal):
what "FilterPolicies applied over R" leaves. -/
def survivors (evalP : ρ → α → Bool) (resources : List ρ)
    (policies : List α) : List α :=
  resources.foldl (fun ps r => ps.filter (evalP r)) policies

/-- Go `pdp.EvalPolicies` (attribute_getter.go lines 398-412): run the fold
and convert `ErrNoPolicies` to the decision `(false, nil)`; any surviving
set means `(true, nil)`; other errors surface with a `false` decision. -/
def EvalPolicies (remoteFails : Bool) (evalP : ρ → α → Bool)
    (resources : List ρ) (policies : List α) : Bool × Option PDPError :=
  match filterPoliciesByEvalResources remoteFails evalP resources policies with
  | .error e => if e = .noPolicies then (false, none) else (false, some e)
  | .ok _ => (true, none)

/-- Environment of one entrance call: outcomes of the service calls the
pipeline makes, plus the request's resources. -/
structure PDPEnv (ρ α : Type) where
  /-- Go `fillActionDetail` outcome. -/
  actionOutcome : LookupOutcome
  /-- Go `ValidateActionResource` / `ValidateActionRemoteResource` verdict. -/
  validateOk : Bool
  /-- Go `fillSubjectDetail` outcome (`notFound` = subject does not exist). -/
  subjectOutcome : LookupOutcome
  /-- PRP `ListBySubjectAction` outcome. -/
  policies : Except Unit (List α)
  /-- Go `r.HasSingleLocalResource()`. -/
  hasSingleLocalResource : Bool
  /-- the single resource of the fast path. -/
  singleResource : ρ
  /-- Go `r.GetSortedResources()`. -/
  resources : List ρ
  /-- the request has remote resources and `fillRemoteResourceAttrs` fails. -/
  remoteFails : Bool
  /-- per-policy evaluation verdict on one resource's context. -/
  evalP : ρ → α → Bool
  /-- Go `PoliciesTranslate` outcome (Query only). -/
  translated : Except Unit Nat

/-- Go `queryPolicies` (policy_curd.go pdp part): PRP lookup; an empty list
becomes `ErrNoPolicies`. -/
def queryPolicies (env : PDPEnv ρ α) : Except PDPError (List α) :=
  match env.policies with
  | .error _ => .error .storageFail
  | .ok ps => if ps.isEmpty then .error .noPolicies else .ok ps

/-- Go `pdp.Eval` (attribute_getter.go lines 74-207). The Go pair
`(isPass, err)` is modelled as `Bool × Option PDPError`. -/
def Eval (env : PDPEnv ρ α) : Bool × Option PDPError :=
  match env.actionOutcome with
  | .notFound => (false, some .invalidAction)
  | .err => (false, some .storageFail)
  | .found =>
    if !env.validateOk then (false, some .invalidActionResource)
    else
      match env.subjectOutcome with
      | .notFound => (false, none)
      | .err => (false, some .storageFail)
      | .found =>
        match queryPolicies env with
        | .error e => if e = .noPolicies then (false, none) else (false, some e)
        | .ok ps =>
          if env.hasSingleLocalResource then
            (ps.any (env.evalP env.singleResource), none)
          else
            match filterPoliciesByEvalResources env.remoteFails env.evalP
                env.resources ps with
            | .error e => if e = .noPolicies then (false, none) else (false, some e)
            | .ok _ => (true, none)

/-- Go `queryFilterPolicies` (policy_curd.go pdp part, lines 613-712):
subject-not-found and both `ErrNoPolicies` sites degrade to the empty
policy list with a nil error. -/
def queryFilterPolicies (willCheckRemote : Bool) (env : PDPEnv ρ α) :
    Except PDPError (List α) :=
  match env.actionOutcome with
  | .notFound => .error .invalidAction
  | .err => .error .storageFail
  | .found =>
    if willCheckRemote && !env.validateOk then .error .invalidActionResource
    else
      match env.subjectOutcome with
      | .notFound => .ok []
      | .err => .error .storageFail
      | .found =>
        match queryPolicies env with
        | .error e => if e = .noPolicies then .ok [] else .error e
        | .ok ps =>
          match filterPoliciesByEvalResources env.remoteFails env.evalP
              env.resources ps with
          | .error e => if e = .noPolicies then .ok [] else .error e
          | .ok filtered => .ok filtered

/-- A Query answer: the empty object `{}` or a translated expression
(translation output abstracted). -/
inductive QueryOut where
  | emptyPolicies
  | expr (cell : Nat)
deriving DecidableEq, Repr

/-- Go `pdp.Query` (attribute_getter.go lines 209-247): empty surviving set
returns the empty object; otherwise the survivors are translated. -/
def Query (willCheckRemote : Bool) (env : PDPEnv ρ α) :
    Except PDPError QueryOut :=
  match queryFilterPolicies willCheckRemote env with
  | .error e => .error e
  | .ok ps =>
    if ps.isEmpty then .ok .emptyPolicies
    else
      match env.translated with
      | .error _ => .error .translateFail
      | .ok cell => .ok (.expr cell)

/-- Go `pdp.QueryAuthPolicies` (attribute_getter.go lines 331-396): no
resource validation step; a missing subject surfaces as
`ErrSubjectNotExists`, and `ErrNoPolicies` is returned as-is. -/
def QueryAuthPolicies (env : PDPEnv ρ α) : Except PDPError (List α) :=
  match env.actionOutcome with
  | .notFound => .error .invalidAction
  | .err => .error .storageFail
  | .found =>
    match env.subjectOutcome with
    | .notFound => .error .subjectNotExists
    | .err => .error .storageFail
    | .found => queryPolicies env

/-- The environment of one request whose subject does not exist. -/
def subjectMissingEnv : PDPEnv Unit Unit :=
  { actionOutcome := .found, validateOk := true, subjectOutcome := .notFound,
    policies := .ok [], hasSingleLocalResource := false, singleResource := (),
    resources := [], remoteFails := false, evalP := fun _ _ => true,
    translated := .ok 0 }

/-- The environment of one request whose surviving policy set becomes
empty during the filtering fold. -/
def noPoliciesEnv : PDPEnv Unit Nat :=
  { actionOutcome := .found, validateOk := true, subjectOutcome := .found,
    policies := .ok [7], hasSingleLocalResource := false, singleResource := (),
    resources := [()], remoteFails := false, evalP := fun _ _ => false,
    translated := .ok 0 }

/-! ## PRP policy CRUD and its cache invalidation (policy_curd.go)

Each mutating operation is modelled as a function from the outcomes of its
service calls to `(succeeded?, events in execution order)`.  A Go `defer`
registered at some point runs on every later exit, LIFO; the event traces
reproduce that. -/

inductive CrudEvent where
  /-- the policy storage mutation call returning with the given outcome. -/
  | storageWrite (ok : Bool)
  /-- Go `policy.DeleteSystemSubjectPKsFromCache(system, [subjectPK])`. -/
  | delPolicyCache (system : String) (subjectPK : Int)
  /-- Go `expression.BatchDeleteExpressionsFromCache(pks)`. -/
  | delExpressionCache (expressionPKs : List Int)
deriving DecidableEq, Repr

/-- Outcomes of the service calls a policy CRUD operation makes. -/
structure CrudEnv where
  /-- Go `subjectService.GetPK`: `some pk` or an error. -/
  getPKResult : Option Int
  /-- Go `actionService.ListThinActionBySystem` succeeded. -/
  listActionsOk : Bool
  /-- Go `actionService.ListActionResourceTypeIDByActionSystem` succeeded. -/
  listActionResourceTypesOk : Bool
  /-- Go `convertToServicePolicies` on the create list succeeded
  (every action id known). -/
  convertCreateOk : Bool
  /-- Go `convertToServicePolicies` on the update list succeeded. -/
  convertUpdateOk : Bool
  /-- the policy storage mutation: `some pks` = committed (the pks are the
  updated expression pks of AlterCustomPolicies), `none` = error. -/
  writeResult : Option (List Int)
deriving DecidableEq, Repr

/-- Go `querySubjectActionForAlterPolicies` (lines 58-94): subject pk lookup
then the two action queries; any failure propagates. -/
def querySubjectActionForAlterPolicies (env : CrudEnv) : Option Int :=
  match env.getPKResult with
  | none => none
  | some pk =>
    if env.listActionsOk && env.listActionResourceTypesOk then some pk
    else none

/-- Go `AlterCustomPolicies` (lines 122-166): the policy cache deletion is
`defer`red before the storage write; the expression cache deletion is
`defer`red after a successful write only. -/
def AlterCustomPolicies (systemID : String) (env : CrudEnv) :
    Bool × List CrudEvent :=
  match querySubjectActionForAlterPolicies env with
  | none => (false, [])
  | some subjectPK =>
    if !env.convertCreateOk then (false, [])
    else if !env.convertUpdateOk then (false, [])
    else
      match env.writeResult with
      | none =>
        (false, [.storageWrite false, .delPolicyCache systemID subjectPK])
      | some updatedPKs =>
        (true, [.storageWrite true, .delExpressionCache updatedPKs,
                .delPolicyCache systemID subjectPK])

/-- Go `DeleteByIDs` (lines 97-120): the cache deletion is `defer`red only
when the id list is non-empty, before the storage delete. -/
def DeleteByIDs (system : String) (policyIDsNonempty : Bool) (env : CrudEnv) :
    Bool × List CrudEvent :=
  match env.getPKResult with
  | none => (false, [])
  | some pk =>
    if !policyIDsNonempty then (true, [])
    else
      match env.writeResult with
      | none => (false, [.storageWrite false, .delPolicyCache system pk])
      | some _ => (true, [.storageWrite true, .delPolicyCache system pk])

/-- Go `UpdateTemplatePolicies` (lines 207-239). -/
def UpdateTemplatePolicies (systemID : String) (env : CrudEnv) :
    Bool × List CrudEvent :=
  match querySubjectActionForAlterPolicies env with
  | none => (false, [])
  | some subjectPK =>
    if !env.convertUpdateOk then (false, [])
    else
      match env.writeResult with
      | none =>
        (false, [.storageWrite false, .delPolicyCache systemID subjectPK])
      | some _ =>
        (true, [.storageWrite true, .delPolicyCache systemID subjectPK])

/-- Go `DeleteTemplatePolicies` (lines 242-265). -/
def DeleteTemplatePolicies (systemID : String) (env : CrudEnv) :
    Bool × List CrudEvent :=
  match env.getPKResult with
  | none => (false, [])
  | some subjectPK =>
    match env.writeResult with
    | none =>
      (false, [.storageWrite false, .delPolicyCache systemID subjectPK])
    | some _ =>
      (true, [.storageWrite true, .delPolicyCache systemID subjectPK])

/-- The environment of a run whose storage write fails after all
pre-queries succeed. -/
def crudWriteFailEnv : CrudEnv :=
  { getPKResult := some 1, listActionsOk := true,
    listActionResourceTypesOk := true, convertCreateOk := true,
    convertUpdateOk := true, writeResult := none }

/-! ## Subject effective set (unnamed/part_000, getEffectSubjectPKs) -/

/-- One subject-group relation with its expiry. -/
structure SubjectGroup where
  pk : Int
  policyExpiredAt : Int
deriving DecidableEq, Repr

/-- The attributes the PIP fills on a subject. -/
structure SubjectAttrs where
  pk : Int
  groups : List SubjectGroup
  departments : List Int
deriving DecidableEq, Repr

/-- Modelled from the spec: `subject.GetEffectGroupPKs` (abac types, not
among the sources) — "只获取有效的": the pks of the direct groups whose
`policy_expired_at` is strictly greater than now. -/
def getEffectGroupPKs (now : Int) (s : SubjectAttrs) : List Int :=
  (s.groups.filter (fun g => now < g.policyExpiredAt)).map SubjectGroup.pk

/-- The department-inherited valid group pks before deduplication:
`impls.ListSubjectEffectGroups(deptPKs)` filtered to
`PolicyExpiredAt > now` (`[]` when there are no departments or the
service errors). -/
def inheritValidPKs (now : Int)
    (listSubjectEffectGroups : List Int → Option (List SubjectGroup))
    (s : SubjectAttrs) : List Int :=
  if s.departments.isEmpty then []
  else
    match listSubjectEffectGroups s.departments with
    | none => []
    | some sgs =>
      (sgs.filter (fun sg => now < sg.policyExpiredAt)).map SubjectGroup.pk

/-- Go `getEffectSubjectPKs` (unnamed/part_000 lines 82-138): self pk first,
then the deduplicated merge of valid direct group pks and valid
department-inherited group pks.  Go's `Int64Set.ToSlice` order is
unspecified; the model fixes first-insertion order, which is also what
`NewFixedLengthInt64Set` produces. -/
def getEffectSubjectPKs (now : Int)
    (listSubjectEffectGroups : List Int → Option (List SubjectGroup))
    (s : SubjectAttrs) : Option (List Int) :=
  let groupPKs := getEffectGroupPKs now s
  let inheritRes : Option (List Int) :=
    if s.departments.isEmpty then some []
    else
      match listSubjectEffectGroups s.departments with
      | none => none
      | some sgs =>
        some (firstDedup
          ((sgs.filter (fun sg => now < sg.policyExpiredAt)).map
            SubjectGroup.pk))
  match inheritRes with
  | none => none
  | some inheritGroupPKs =>
    some (s.pk :: firstDedup (groupPKs ++ inheritGroupPKs))

/-! ## Expiry renewal (policy_curd.go UpdateSubjectPoliciesExpiredAt and
unnamed/part_002 bulkCreateOrUpdateSubjectMembers) -/

/-- A `(policy pk, new expired_at)` renewal request. -/
structure PolicyPKExpiredAt where
  pk : Int
  expiredAt : Int
deriving DecidableEq, Repr

/-- A stored policy row as `ListQueryByPKs` returns it. -/
structure QueryPolicy where
  pk : Int
  subjectPK : Int
  actionPK : Int
  expressionPK : Int
  expiredAt : Int
deriving DecidableEq, Repr

/-- The Go map `idExpiredAtMap` built from the request list: last write
wins, a missing key yields int64's zero value. -/
def idExpiredAtMap (policies : List PolicyPKExpiredAt) (pk : Int) : Int :=
  match policies.reverse.find? (fun p => p.pk == pk) with
  | some p => p.expiredAt
  | none => 0

/-- The update set of `UpdateSubjectPoliciesExpiredAt` (lines 300-305):
stored rows of this subject whose expiry strictly increases, carried over
with the new expiry. -/
def computeUpdatePolicies (subjectPK : Int) (policies : List PolicyPKExpiredAt)
    (stored : List QueryPolicy) : List QueryPolicy :=
  stored.filterMap (fun p =>
    if p.subjectPK = subjectPK ∧ p.expiredAt < idExpiredAtMap policies p.pk
    then some { p with expiredAt := idExpiredAtMap policies p.pk }
    else none)

/-- Events of the renewal operation, in execution order. -/
inductive RenewEvent where
  /-- Go `policyService.UpdateExpiredAt(updates)` with its outcome. -/
  | updateExpiredAt (updates : List QueryPolicy) (ok : Bool)
  /-- deferred `policy.BatchDeleteSystemSubjectPKsFromCache`. -/
  | delPolicyCacheSystems (systems : List String) (subjectPK : Int)
deriving DecidableEq, Repr

/-- Outcomes of the service calls `UpdateSubjectPoliciesExpiredAt` makes. -/
structure RenewEnv where
  /-- Go `subjectService.GetPK`. -/
  getPKResult : Option Int
  /-- Go `policyService.ListQueryByPKs`. -/
  storedResult : Option (List QueryPolicy)
  /-- Go `queryPoliciesSystemSet`. -/
  systemSetResult : Option (List String)
  /-- Go `policyService.UpdateExpiredAt` succeeds. -/
  updateOk : Bool
deriving DecidableEq, Repr

/-- Go `UpdateSubjectPoliciesExpiredAt` (policy_curd.go lines 267-328): when
no stored policy qualifies the operation returns nil having touched
neither storage nor cache; otherwise the cache deletion is `defer`red
before `UpdateExpiredAt` and runs after it on both outcomes. -/
def UpdateSubjectPoliciesExpiredAt (policies : List PolicyPKExpiredAt)
    (env : RenewEnv) : Bool × List RenewEvent :=
  match env.getPKResult with
  | none => (false, [])
  | some subjectPK =>
    if policies.isEmpty then (true, [])
    else
      match env.storedResult with
      | none => (false, [])
      | some stored =>
        let updatePolicies := computeUpdatePolicies subjectPK policies stored
        if updatePolicies.isEmpty then (true, [])
        else
          match env.systemSetResult with
          | none => (false, [])
          | some systems =>
            if env.updateOk then
              (true, [.updateExpiredAt updatePolicies true,
                      .delPolicyCacheSystems systems subjectPK])
            else
              (false, [.updateExpiredAt updatePolicies false,
                       .delPolicyCacheSystems systems subjectPK])

/-- A subject row as the dao returns it. -/
structure DaoSubject where
  pk : Int
  type : String
  id : String
deriving DecidableEq, Repr

/-- A group-member relation row. -/
structure SubjectRelation where
  pk : Int
  subjectPK : Int
  parentPK : Int
  policyExpiredAt : Int
deriving DecidableEq, Repr

/-- The `(relation pk, new policy_expired_at)` update row. -/
structure SubjectRelationPKPolicyExpiredAt where
  pk : Int
  policyExpiredAt : Int
deriving DecidableEq, Repr

/-- A member together with the requested expiry. -/
structure SubjectWithExpiredAt where
  type : String
  id : String
  policyExpiredAt : Int
deriving DecidableEq, Repr

/-- Go `fmt.Sprintf("%s:%s", type, id)`. -/
def subjectKey (t i : String) : String := t ++ ":" ++ i

/-- Go `genSubjectExpiredAtMap` (part_002 lines 339-345): Go map, last write
wins, missing key yields zero. -/
def genSubjectExpiredAtMap (subjects : List SubjectWithExpiredAt)
    (key : String) : Int :=
  match subjects.reverse.find? (fun s => subjectKey s.type s.id == key) with
  | some s => s.policyExpiredAt
  | none => 0

/-- Go `getDaoRelationMap` (part_002 lines 363-374): subjectPK-keyed Go map
over `ListMember`'s rows, last write wins. -/
def daoRelationLookup (relations : List SubjectRelation) (subjectPK : Int) :
    Option SubjectRelation :=
  relations.reverse.find? (fun r => r.subjectPK == subjectPK)

/-- What the generation loop of `bulkCreateOrUpdateSubjectMembers`
accumulates. -/
structure BulkGenResult where
  updateRelations : List SubjectRelationPKPolicyExpiredAt
  createRelations : List SubjectRelation
  subjectPKWithExpiredAts : List (Int × Int)
  userCount : Int
  departmentCount : Int
deriving DecidableEq, Repr

/-- One iteration of the loop (part_002 lines 269-302): an existing
relation is updated only when its stored expiry is strictly below the
requested one; a missing relation is created when `createIfNotExists`. -/
def bulkGenStep (parentPK : Int) (subjectExpiredAtMap : String → Int)
    (relationLookup : Int → Option SubjectRelation) (createIfNotExists : Bool)
    (acc : BulkGenResult) (s : DaoSubject) : BulkGenResult :=
  match relationLookup s.pk with
  | some daoRelation =>
    if daoRelation.policyExpiredAt < subjectExpiredAtMap (subjectKey s.type s.id) then
      { acc with
        updateRelations := acc.updateRelations ++
          [⟨daoRelation.pk, subjectExpiredAtMap (subjectKey s.type s.id)⟩],
        subjectPKWithExpiredAts := acc.subjectPKWithExpiredAts ++
          [(s.pk, subjectExpiredAtMap (subjectKey s.type s.id))] }
    else acc
  | none =>
    if createIfNotExists then
      { acc with
        createRelations := acc.createRelations ++
          [⟨0, s.pk, parentPK, subjectExpiredAtMap (subjectKey s.type s.id)⟩],
        subjectPKWithExpiredAts := acc.subjectPKWithExpiredAts ++
          [(s.pk, subjectExpiredAtMap (subjectKey s.type s.id))],
        userCount := acc.userCount + (if s.type = "user" then 1 else 0),
        departmentCount := acc.departmentCount +
          (if s.type = "department" then 1 else 0) }
    else acc

/-- The pure generation core of `bulkCreateOrUpdateSubjectMembers`
(part_002 lines 226-337), from the already-fetched inputs. -/
def bulkCreateOrUpdateSubjectMembers (parentPK : Int)
    (subjectWithExpiredAts : List SubjectWithExpiredAt)
    (daoRelations : List SubjectRelation) (daoSubjects : List DaoSubject)
    (createIfNotExists : Bool) : BulkGenResult :=
  daoSubjects.foldl
    (bulkGenStep parentPK (genSubjectExpiredAtMap subjectWithExpiredAts)
      (daoRelationLookup daoRelations) createIfNotExists)
    ⟨[], [], [], 0, 0⟩

/-! ## Expression translation (pkg/abac/pdp/translate, PolicyTranslate)

Modelled from the spec: the body of `translate.PolicyTranslate` is not
among the sources, only its unit tests.  JSON parsing (jsoniter) and the
per-element condition translation are abstracted as parameters; the
element filtering, the `""`/`"[]"` short-cut, and the arity cases follow
the spec and are pinned by the tests. -/

/-- One element of a stored resource expression: the `(system, type)` pair
(its condition subtree is handled by the abstracted element translator). -/
structure ResourceExpr where
  system : String
  type : String
deriving DecidableEq, Repr

/-- The universal cell `{op: "any", field: "", value: []}`. -/
def anyExpressionCell : ExprCell := .leaf "any" "" (.list [])

/-- Translate the elements whose `system:type` key is requested, in order;
an element translation error propagates, unrequested elements are
dropped. -/
def collectContent (translateElem : ResourceExpr → Option ExprCell)
    (resourceTypeSet : List String) : List ResourceExpr → Option (List ExprCell)
  | [] => some []
  | e :: rest =>
    if (e.system ++ ":" ++ e.type) ∈ resourceTypeSet then
      match translateElem e with
      | none => none
      | some cell =>
        match collectContent translateElem resourceTypeSet rest with
        | none => none
        | some cs => some (cell :: cs)
    else collectContent translateElem resourceTypeSet rest

/-- Go `translate.PolicyTranslate`: `""`/`"[]"` and an all-dropped element
list yield the universal cell; one translated element stands alone;
several are wrapped in AND. -/
def PolicyTranslate (parse : String → Option (List ResourceExpr))
    (translateElem : ResourceExpr → Option ExprCell)
    (resourceExpression : String) (resourceTypeSet : List String) :
    Option ExprCell :=
  if resourceExpression = "" ∨ resourceExpression = "[]" then
    some anyExpressionCell
  else
    match parse resourceExpression with
    | none => none
    | some expressions =>
      match collectContent translateElem resourceTypeSet expressions with
      | none => none
      | some content =>
        match content with
        | [] => some anyExpressionCell
        | [c] => some c
        | cs => some (.node "AND" cs)

/-! ## Condition leaves and composites (pkg/abac/pdp/condition)

Modelled from the spec: `baseCondition.forOr` and the AND/OR composites
are not among the sources; only `forOr`'s unit tests are
(policy_curd.go's condition part).  The attribute fetch returns a scalar,
a list, or an error — in this codebase a missing attribute is reported as
a fetch error.  The leaf operator is abstracted as its binary relation
`fn`. -/

/-- What `ctx.GetAttr(key)` produces. -/
inductive AttrResult where
  | err
  | scalar (v : Scalar)
  | list (vs : List Scalar)
deriving DecidableEq, Repr

/-- Go `baseCondition.forOr`: a fetch error makes the leaf false; a list
attribute is satisfied when any element matches any configured value, a
scalar when it matches any configured value. -/
def forOr (getAttr : String → AttrResult) (key : String)
    (values : List Scalar) (fn : Scalar → Scalar → Bool) : Bool :=
  match getAttr key with
  | .err => false
  | .scalar attr => values.any (fun v => fn attr v)
  | .list attrs => attrs.any (fun attr => values.any (fun v => fn attr v))

/-- A condition tree: leaves evaluated through `forOr`, composites
AND/OR. -/
inductive Condition where
  | leaf (key : String) (values : List Scalar) (fn : Scalar → Scalar → Bool)
  | and (content : List Condition)
  | or (content : List Condition)

mutual

/-- Condition evaluation: a Bool at every node, errors never escape a
leaf. -/
def Condition.eval (getAttr : String → AttrResult) : Condition → Bool
  | .leaf key values fn => forOr getAttr key values fn
  | .and content => Condition.evalAll getAttr content
  | .or content => Condition.evalAny getAttr content

/-- Fold-true with short-circuit on false; empty AND is true. -/
def Condition.evalAll (getAttr : String → AttrResult) : List Condition → Bool
  | [] => true
  | c :: cs => Condition.eval getAttr c && Condition.evalAll getAttr cs

/-- Fold-false with short-circuit on true; empty OR is false. -/
def Condition.evalAny (getAttr : String → AttrResult) : List Condition → Bool
  | [] => false
  | c :: cs => Condition.eval getAttr c || Condition.evalAny getAttr cs

end

/-- A concrete department-to-groups service answer used to exercise
`getEffectSubjectPKs`. -/
def c4Svc : List Int → Option (List SubjectGroup) :=
  fun _ => some [⟨4, 200⟩, ⟨2, 150⟩, ⟨5, 10⟩]

/-- A concrete subject: pk 1, one valid and one expired direct group, one
department. -/
def c4Subject : SubjectAttrs :=
  ⟨1, [⟨2, 200⟩, ⟨3, 50⟩], [10]⟩

/-- A concrete attribute context whose `missing` key errors. -/
def c8GetAttr : String → AttrResult :=
  fun k => if k = "missing" then .err else .scalar (.s "prod")

/-! ### firstDedup lemmas -/

theorem firstDedupAux_congr [DecidableEq α] {s t : List α} (l : List α)
    (h : ∀ a : α, a ∈ s ↔ a ∈ t) : firstDedupAux s l = firstDedupAux t l := by
  induction l generalizing s t with
  | nil => rfl
  | cons x xs ih =>
    simp only [firstDedupAux]
    by_cases hx : x ∈ s
    · rw [if_pos hx, if_pos ((h x).mp hx)]
      exact ih h
    · rw [if_neg hx, if_neg (fun hc => hx ((h x).mpr hc))]
      refine congrArg (List.cons x) (ih ?_)
      intro a
      simp only [List.mem_cons]
      exact or_congr Iff.rfl (h a)

theorem firstDedupAux_append [DecidableEq α] (s l₁ l₂ : List α) :
    firstDedupAux s (l₁ ++ l₂) =
      firstDedupAux s l₁ ++ firstDedupAux (l₁ ++ s) l₂ := by
  induction l₁ generalizing s with
  | nil => rfl
  | cons x xs ih =>
    simp only [List.cons_append, firstDedupAux, List.append_eq]
    by_cases hx : x ∈ s
    · rw [if_pos hx, if_pos hx, ih]
      refine congrArg (firstDedupAux s xs ++ ·) (firstDedupAux_congr l₂ ?_)
      intro a
      simp only [List.mem_append, List.mem_cons]
      constructor
      · exact fun h => Or.inr h
      · rintro (rfl | h)
        · exact Or.inr hx
        · exact h
    · rw [if_neg hx, if_neg hx, ih, List.cons_append]
      refine congrArg (fun u => x :: (firstDedupAux (x :: s) xs ++ u))
        (firstDedupAux_congr l₂ ?_)
      intro a
      simp only [List.mem_append, List.mem_cons]
      tauto

theorem mem_firstDedupAux [DecidableEq α] {a : α} (s l : List α) :
    a ∈ firstDedupAux s l ↔ a ∈ l ∧ a ∉ s := by
  induction l generalizing s with
  | nil => simp [firstDedupAux]
  | cons x xs ih =>
    simp only [firstDedupAux]
    by_cases hx : x ∈ s
    · rw [if_pos hx, ih]
      simp only [List.mem_cons]
      constructor
      · rintro ⟨h1, h2⟩
        exact ⟨Or.inr h1, h2⟩
      · rintro ⟨h1 | h1, h2⟩
        · exact absurd (h1 ▸ hx) h2
        · exact ⟨h1, h2⟩
    · rw [if_neg hx]
      simp only [List.mem_cons, ih]
      constructor
      · rintro (rfl | ⟨h1, h2⟩)
        · exact ⟨Or.inl rfl, hx⟩
        · exact ⟨Or.inr h1, fun hs => h2 (Or.inr hs)⟩
      · rintro ⟨h1 | h1, h2⟩
        · exact Or.inl h1
        · by_cases hax : a = x
          · exact Or.inl hax
          · refine Or.inr ⟨h1, fun hc => ?_⟩
            rcases hc with h | h
            · exact hax h
            · exact h2 h

theorem firstDedupAux_nodup [DecidableEq α] (s l : List α) :
    (firstDedupAux s l).Nodup := by
  induction l generalizing s with
  | nil => simp [firstDedupAux]
  | cons x xs ih =>
    simp only [firstDedupAux]
    by_cases hx : x ∈ s
    · rw [if_pos hx]
      exact ih s
    · rw [if_neg hx]
      refine List.nodup_cons.mpr ⟨fun hc => ?_, ih (x :: s)⟩
      exact ((mem_firstDedupAux (x :: s) xs).mp hc).2 (List.mem_cons_self x s)

theorem firstDedupAux_firstDedupAux [DecidableEq α] (s t l : List α) :
    firstDedupAux s (firstDedupAux t l) = firstDedupAux (s ++ t) l := by
  induction l generalizing s t with
  | nil => rfl
  | cons x xs ih =>
    simp only [firstDedupAux]
    by_cases hxt : x ∈ t
    · rw [if_pos hxt, if_pos (List.mem_append.mpr (Or.inr hxt))]
      exact ih s t
    · rw [if_neg hxt]
      by_cases hxs : x ∈ s
      · rw [if_pos (List.mem_append.mpr (Or.inl hxs))]
        simp only [firstDedupAux, if_pos hxs]
        rw [ih s (x :: t)]
        refine firstDedupAux_congr xs ?_
        intro a
        simp only [List.mem_append, List.mem_cons]
        constructor
        · rintro (h | rfl | h)
          · exact Or.inl h
          · exact Or.inl hxs
          · exact Or.inr h
        · tauto
      · rw [if_neg (fun hc => by
          rcases List.mem_append.mp hc with h | h
          · exact hxs h
          · exact hxt h)]
        simp only [firstDedupAux, if_neg hxs]
        refine congrArg (List.cons x) ?_
        rw [ih (x :: s) (x :: t)]
        refine firstDedupAux_congr xs ?_
        intro a
        simp only [List.mem_append, List.mem_cons]
        tauto

theorem mem_firstDedup [DecidableEq α] {a : α} (l : List α) :
    a ∈ firstDedup l ↔ a ∈ l := by
  rw [firstDedup, mem_firstDedupAux]
  simp

theorem firstDedup_nodup [DecidableEq α] (l : List α) : (firstDedup l).Nodup :=
  firstDedupAux_nodup [] l

theorem firstDedup_firstDedup [DecidableEq α] (l : List α) :
    firstDedup (firstDedup l) = firstDedup l := by
  rw [firstDedup, firstDedup, firstDedupAux_firstDedupAux]
  rfl

/-- Deduplicating after an already-deduplicated prefix is the same as
deduplicating the raw concatenation. -/
theorem firstDedup_append_firstDedup [DecidableEq α] (a b : List α) :
    firstDedup (a ++ firstDedup b) = firstDedup (a ++ b) := by
  simp only [firstDedup]
  rw [firstDedupAux_append, firstDedupAux_append, firstDedupAux_firstDedupAux,
    List.append_nil, List.append_nil]

theorem firstDedup_snoc [DecidableEq α] (l : List α) (x : α) :
    firstDedup (l ++ [x]) = firstDedup l ++ if x ∈ l then [] else [x] := by
  rw [firstDedup, firstDedupAux_append]
  refine congrArg (firstDedupAux [] l ++ ·) ?_
  simp only [firstDedupAux, List.append_nil]

theorem firstDedupAux_eq_self [DecidableEq α] {s l : List α} (hnd : l.Nodup)
    (hs : ∀ a ∈ l, a ∉ s) : firstDedupAux s l = l := by
  induction l generalizing s with
  | nil => rfl
  | cons x xs ih =>
    rcases List.nodup_cons.mp hnd with ⟨hx, hxs⟩
    rw [firstDedupAux, if_neg (hs x (List.mem_cons_self x xs))]
    refine congrArg (List.cons x) (ih hxs ?_)
    intro a ha
    simp only [List.mem_cons]
    rintro (rfl | hmem)
    · exact hx ha
    · exact hs a (List.mem_cons_of_mem x ha) hmem

theorem firstDedup_eq_self_of_nodup [DecidableEq α] {l : List α}
    (h : l.Nodup) : firstDedup l = l :=
  firstDedupAux_eq_self h (by simp)

/-! ### The two-pass fold computes the declarative merge -/

theorem foldl_collectStep (l : List ExprCell) (nc : List ExprCell)
    (bk : List (String × List ExprCell)) :
    l.foldl collectStep (nc, bk) =
      (nc ++ l.filter (fun e => !e.mergeable), l.foldl bucketStep bk) := by
  induction l generalizing nc bk with
  | nil => simp
  | cons e l ih =>
    simp only [List.foldl_cons, List.filter_cons, collectStep, bucketStep]
    by_cases he : e.mergeable = true
    · simp only [he, if_true, Bool.not_true, Bool.false_eq_true, if_false, ih]
    · simp only [he, if_false, Bool.not_eq_true] at *
      simp only [he, Bool.not_false, if_true, if_false, ih, List.append_assoc,
        List.singleton_append]
      simp [he]

theorem insertBucket_of_not_mem_keys (f : String) (e : ExprCell)
    (bk : List (String × List ExprCell)) (h : f ∉ bk.map Prod.fst) :
    insertBucket f e bk = bk ++ [(f, [e])] := by
  induction bk with
  | nil => rfl
  | cons p bk ih =>
    obtain ⟨g, es⟩ := p
    simp only [List.map_cons, List.mem_cons, not_or] at h
    have hgf : ¬ (g = f) := fun hc => h.1 hc.symm
    simp only [insertBucket, if_neg hgf, List.cons_append]
    exact congrArg (List.cons (g, es)) (ih h.2)

theorem insertBucket_map (f : String) (e : ExprCell) (ks : List String)
    (g g' : String → List ExprCell) (hk : f ∈ ks) (hnd : ks.Nodup)
    (hg' : ∀ k, g' k = if k = f then g k ++ [e] else g k) :
    insertBucket f e (ks.map (fun k => (k, g k))) =
      ks.map (fun k => (k, g' k)) := by
  induction ks with
  | nil => cases hk
  | cons k ks ih =>
    rcases List.nodup_cons.mp hnd with ⟨hknot, hksnd⟩
    simp only [List.map_cons, insertBucket]
    by_cases hkf : k = f
    · rw [if_pos hkf, hg' k, if_pos hkf]
      refine congrArg (List.cons (k, g k ++ [e])) ?_
      refine List.map_congr_left ?_
      intro j hj
      rw [hg' j, if_neg ?_]
      intro hc
      have hjk : j = k := hc.trans hkf.symm
      exact hknot (hjk ▸ hj)
    · rw [if_neg hkf, hg' k, if_neg hkf]
      refine congrArg (List.cons (k, g k)) (ih ?_ hksnd)
      rcases List.mem_cons.mp hk with h | h
      · exact absurd h.symm hkf
      · exact h

theorem mergeablesField_append (f : String) (l₁ l₂ : List ExprCell) :
    mergeablesField f (l₁ ++ l₂) = mergeablesField f l₁ ++ mergeablesField f l₂ := by
  simp only [mergeablesField, List.filter_append]

theorem mergeFields_append (l₁ l₂ : List ExprCell) :
    mergeFields (l₁ ++ l₂) = mergeFields l₁ ++ mergeFields l₂ := by
  simp [mergeFields, List.filter_append]

theorem mergeablesField_eq_nil_of_not_mem_mergeFields (f : String)
    (l : List ExprCell) (h : f ∉ mergeFields l) : mergeablesField f l = [] := by
  simp only [mergeablesField]
  rw [List.filter_eq_nil_iff]
  intro e he
  simp only [Bool.and_eq_true, beq_iff_eq, not_and]
  intro hm hf
  exact h (by
    simp only [mergeFields, List.mem_map]
    exact ⟨e, List.mem_filter.mpr ⟨he, hm⟩, hf⟩)

theorem mergeFields_snoc_mergeable (xs : List ExprCell) (e : ExprCell)
    (he : e.mergeable = true) :
    mergeFields (xs ++ [e]) = mergeFields xs ++ [e.fieldOf] := by
  rw [mergeFields_append]
  simp [mergeFields, List.filter_cons, he]

theorem mergeFields_snoc_not_mergeable (xs : List ExprCell) (e : ExprCell)
    (he : ¬ e.mergeable = true) :
    mergeFields (xs ++ [e]) = mergeFields xs := by
  rw [mergeFields_append]
  simp [mergeFields, List.filter_cons, he]

theorem mergeablesField_snoc_mergeable (xs : List ExprCell) (e : ExprCell)
    (he : e.mergeable = true) (f : String) :
    mergeablesField f (xs ++ [e]) =
      mergeablesField f xs ++ if e.fieldOf = f then [e] else [] := by
  rw [mergeablesField_append]
  refine congrArg (mergeablesField f xs ++ ·) ?_
  simp only [mergeablesField, List.filter_cons, List.filter_nil, he,
    Bool.true_and, beq_iff_eq]

theorem mergeablesField_snoc_not_mergeable (xs : List ExprCell) (e : ExprCell)
    (he : ¬ e.mergeable = true) (f : String) :
    mergeablesField f (xs ++ [e]) = mergeablesField f xs := by
  rw [mergeablesField_append]
  simp only [mergeablesField, List.filter_cons, List.filter_nil]
  simp [he]

/-- The bucket list after the first pass: one bucket per distinct field of
the mergeable cells, in first-occurrence order, each holding that field's
mergeable cells in input order. -/
theorem foldl_bucketStep_char (l : List ExprCell) :
    l.foldl bucketStep [] =
      (firstDedup (mergeFields l)).map (fun f => (f, mergeablesField f l)) := by
  induction l using List.reverseRecOn with
  | nil => rfl
  | append_singleton xs e ih =>
    rw [List.foldl_append, List.foldl_cons, List.foldl_nil, bucketStep]
    by_cases he : e.mergeable = true
    · rw [if_pos he, ih, mergeFields_snoc_mergeable xs e he, firstDedup_snoc]
      by_cases hmem : e.fieldOf ∈ mergeFields xs
      · rw [if_pos hmem, List.append_nil]
        refine insertBucket_map e.fieldOf e _ _ _
          ((mem_firstDedup _).mpr hmem) (firstDedup_nodup _) ?_
        intro k
        rw [mergeablesField_snoc_mergeable xs e he k]
        by_cases hk : k = e.fieldOf
        · rw [if_pos hk, if_pos hk.symm]
        · rw [if_neg hk, if_neg (fun hc => hk hc.symm), List.append_nil]
      · rw [if_neg hmem, List.map_append]
        rw [insertBucket_of_not_mem_keys _ _ _ ?_]
        · refine congrArg₂ (· ++ ·) ?_ ?_
          · refine List.map_congr_left ?_
            intro f hf
            rw [mergeablesField_snoc_mergeable xs e he f, if_neg ?_,
              List.append_nil]
            intro hc
            rw [hc] at hmem
            exact hmem ((mem_firstDedup _).mp hf)
          · simp only [List.map_cons, List.map_nil]
            rw [mergeablesField_snoc_mergeable xs e he e.fieldOf, if_pos rfl,
              mergeablesField_eq_nil_of_not_mem_mergeFields _ _ hmem,
              List.nil_append]
        · simp only [List.map_map]
          intro hc
          rcases List.mem_map.mp hc with ⟨f, hf, hfe⟩
          simp only [Function.comp] at hfe
          rw [← hfe] at hmem
          exact hmem ((mem_firstDedup _).mp hf)
    · rw [if_neg he, ih, mergeFields_snoc_not_mergeable xs e he]
      refine List.map_congr_left ?_
      intro f _
      rw [mergeablesField_snoc_not_mergeable xs e he f]

/-- Go `mergeContentField` computes the declarative merge: non-mergeable cells
first, in original order, then one collapsed cell per field in
first-occurrence order. -/
theorem mergeContentField_eq_specMerge (content : List ExprCell) :
    mergeContentField content = specMerge content := by
  rw [mergeContentField, specMerge]
  simp only [foldl_collectStep, foldl_bucketStep_char, List.nil_append,
    List.map_map]
  rfl

/-! ### Idempotence of the merge -/

theorem mem_mergeFields {f : String} {l : List ExprCell} :
    f ∈ mergeFields l ↔ ∃ e ∈ l, e.mergeable = true ∧ e.fieldOf = f := by
  simp [mergeFields, List.mem_map, List.mem_filter, and_assoc]

theorem mergeablesField_all {f : String} {l : List ExprCell} :
    ∀ e ∈ mergeablesField f l, e.mergeable = true ∧ e.fieldOf = f := by
  intro e he
  rcases List.mem_filter.mp he with ⟨_, hp⟩
  simp only [Bool.and_eq_true, beq_iff_eq] at hp
  exact hp

theorem mergeablesField_ne_nil {f : String} {l : List ExprCell}
    (h : f ∈ mergeFields l) : mergeablesField f l ≠ [] := by
  rcases mem_mergeFields.mp h with ⟨e, hel, hm, hf⟩
  intro hc
  have hmem : e ∈ mergeablesField f l :=
    List.mem_filter.mpr ⟨hel, by simp [hm, hf]⟩
  rw [hc] at hmem
  cases hmem

theorem mergeGroup_singleton (f : String) (e : ExprCell) :
    mergeGroup f [e] = e := rfl

theorem mergeGroup_mergeable (f : String) (es : List ExprCell)
    (hne : es ≠ []) (h : ∀ e ∈ es, e.mergeable = true) :
    (mergeGroup f es).mergeable = true := by
  match es with
  | [] => exact absurd rfl hne
  | [e] => exact h e (by simp)
  | e1 :: e2 :: rest => simp [mergeGroup, ExprCell.mergeable]

theorem mergeGroup_fieldOf (f : String) (es : List ExprCell)
    (hne : es ≠ []) (h : ∀ e ∈ es, e.fieldOf = f) :
    (mergeGroup f es).fieldOf = f := by
  match es with
  | [] => exact absurd rfl hne
  | [e] => exact h e (by simp)
  | e1 :: e2 :: rest => simp [mergeGroup, ExprCell.fieldOf]

theorem filter_map_comm (p : β → Bool) (f : α → β) (l : List α) :
    (l.map f).filter p = (l.filter (fun a => p (f a))).map f := by
  induction l with
  | nil => rfl
  | cons x xs ih =>
    simp only [List.map_cons, List.filter_cons]
    by_cases hx : p (f x) = true
    · rw [if_pos hx, if_pos hx, List.map_cons, ih]
    · rw [if_neg hx, if_neg hx, ih]

theorem nodup_filter_beq_eq {ks : List String} (hnd : ks.Nodup) {f : String}
    (hf : f ∈ ks) : ks.filter (fun x => x == f) = [f] := by
  induction ks with
  | nil => cases hf
  | cons k ks ih =>
    rcases List.nodup_cons.mp hnd with ⟨hk, hnd2⟩
    rcases List.mem_cons.mp hf with rfl | hf2
    · rw [List.filter_cons, if_pos (by simp)]
      refine congrArg (List.cons f) ?_
      rw [List.filter_eq_nil_iff]
      intro a ha
      simp only [beq_iff_eq]
      intro hc
      exact hk (hc ▸ ha)
    · have hkf : ¬ ((k == f) = true) := by
        simp only [beq_iff_eq]
        intro hc
        rw [hc] at hk
        exact hk hf2
      rw [List.filter_cons, if_neg hkf]
      exact ih hnd2 hf2

theorem specMerge_idem (X : List ExprCell) :
    specMerge (specMerge X) = specMerge X := by
  rw [specMerge, specMerge]
  set N := X.filter (fun e => !e.mergeable) with hNdef
  set M := (firstDedup (mergeFields X)).map
    (fun f => mergeGroup f (mergeablesField f X)) with hMdef
  have hN : ∀ e ∈ N, (!e.mergeable) = true :=
    fun e he => (List.mem_filter.mp he).2
  have hMmerge : ∀ m ∈ M, m.mergeable = true := by
    intro m hm
    rw [hMdef] at hm
    rcases List.mem_map.mp hm with ⟨f, hf, rfl⟩
    have hfX : f ∈ mergeFields X := (mem_firstDedup _).mp hf
    exact mergeGroup_mergeable f _ (mergeablesField_ne_nil hfX)
      (fun e he => (mergeablesField_all e he).1)
  have hMfield : ∀ f ∈ firstDedup (mergeFields X),
      (mergeGroup f (mergeablesField f X)).fieldOf = f := by
    intro f hf
    have hfX : f ∈ mergeFields X := (mem_firstDedup _).mp hf
    exact mergeGroup_fieldOf f _ (mergeablesField_ne_nil hfX)
      (fun e he => (mergeablesField_all e he).2)
  have hNfix : N.filter (fun e => !e.mergeable) = N :=
    List.filter_eq_self.mpr hN
  have hMnil : M.filter (fun e => !e.mergeable) = [] := by
    rw [List.filter_eq_nil_iff]
    intro m hm
    simp [hMmerge m hm]
  have hmfN : mergeFields N = [] := by
    rw [mergeFields, List.filter_eq_nil_iff.mpr (fun e he => by
      have hne := hN e he
      simp only [Bool.not_eq_true'] at hne
      simp [hne])]
    rfl
  have hmfM : mergeFields M = firstDedup (mergeFields X) := by
    rw [mergeFields, List.filter_eq_self.mpr hMmerge, hMdef, List.map_map]
    refine (List.map_congr_left ?_).trans (List.map_id _)
    intro f hf
    exact hMfield f hf
  have hmf : mergeFields (N ++ M) = firstDedup (mergeFields X) := by
    rw [mergeFields_append, hmfN, hmfM, List.nil_append]
  have hmwf : ∀ f ∈ firstDedup (mergeFields X),
      mergeablesField f (N ++ M) = [mergeGroup f (mergeablesField f X)] := by
    intro f hf
    rw [mergeablesField_append]
    have h1 : mergeablesField f N = [] := by
      rw [mergeablesField, List.filter_eq_nil_iff]
      intro e he
      have hne := hN e he
      simp only [Bool.not_eq_true'] at hne
      simp [hne]
    have h2 : mergeablesField f M = [mergeGroup f (mergeablesField f X)] := by
      rw [mergeablesField, hMdef, filter_map_comm]
      rw [List.filter_congr (fun g hg => ?_)]
      · rw [nodup_filter_beq_eq (firstDedup_nodup _) hf, List.map_cons,
          List.map_nil]
      · show (((mergeGroup g (mergeablesField g X)).mergeable &&
          ((mergeGroup g (mergeablesField g X)).fieldOf == f)) = (g == f))
        rw [hMfield g hg, hMmerge _ (List.mem_map.mpr ⟨g, hg, rfl⟩),
          Bool.true_and]
    rw [h1, h2, List.nil_append]
  rw [List.filter_append, hNfix, hMnil, List.append_nil, hmf,
    firstDedup_eq_self_of_nodup (firstDedup_nodup _)]
  refine congrArg (N ++ ·) ?_
  conv_rhs => rw [hMdef]
  refine List.map_congr_left ?_
  intro f hf
  rw [hmwf f hf, mergeGroup_singleton]

/-- Go `mergeContentField` is idempotent. -/
theorem mergeContentField_idem_aux (content : List ExprCell) :
    mergeContentField (mergeContentField content) = mergeContentField content := by
  rw [mergeContentField_eq_specMerge, mergeContentField_eq_specMerge,
    specMerge_idem]

/-! ### Evaluation fold lemmas -/

theorem survivors_nil (evalP : ρ → α → Bool) (rs : List ρ) :
    survivors evalP rs ([] : List α) = [] := by
  induction rs with
  | nil => rfl
  | cons r rs ih =>
    rw [survivors, List.foldl_cons, List.filter_nil]
    exact ih

theorem survivors_cons (evalP : ρ → α → Bool) (r : ρ) (rs : List ρ)
    (ps : List α) :
    survivors evalP (r :: rs) ps = survivors evalP rs (ps.filter (evalP r)) :=
  rfl

/-- On a non-empty policy list the fold either succeeds with exactly the
non-empty repeated-filter survivors, or raises `ErrNoPolicies` exactly when
the repeated filter comes out empty. -/
theorem filterPoliciesFold_spec (evalP : ρ → α → Bool) :
    ∀ (rs : List ρ) (ps : List α), ps ≠ [] →
      (filterPoliciesFold evalP rs ps = .ok (survivors evalP rs ps) ∧
        survivors evalP rs ps ≠ []) ∨
      (filterPoliciesFold evalP rs ps = .error .noPolicies ∧
        survivors evalP rs ps = []) := by
  intro rs
  induction rs with
  | nil =>
    intro ps hps
    left
    exact ⟨rfl, hps⟩
  | cons r rs ih =>
    intro ps hps
    by_cases hflt : (ps.filter (evalP r)).isEmpty
    · right
      constructor
      · simp [filterPoliciesFold, hflt]
      · rw [survivors_cons, List.isEmpty_iff.mp hflt, survivors_nil]
    · have hne : ps.filter (evalP r) ≠ [] := by
        simpa [List.isEmpty_iff] using hflt
      rcases ih (ps.filter (evalP r)) hne with ⟨h1, h2⟩ | ⟨h1, h2⟩
      · left
        refine ⟨?_, ?_⟩
        · rw [filterPoliciesFold, if_neg (by simpa using hflt)]
          rw [survivors_cons]
          exact h1
        · rw [survivors_cons]
          exact h2
      · right
        refine ⟨?_, ?_⟩
        · rw [filterPoliciesFold, if_neg (by simpa using hflt)]
          exact h1
        · rw [survivors_cons]
          exact h2

theorem filterPoliciesFold_error (evalP : ρ → α → Bool) :
    ∀ (rs : List ρ) (ps : List α) (e : PDPError),
      filterPoliciesFold evalP rs ps = .error e → e = .noPolicies := by
  intro rs
  induction rs with
  | nil =>
    intro ps e h
    cases h
  | cons r rs ih =>
    intro ps e h
    rw [filterPoliciesFold] at h
    by_cases hflt : (ps.filter (evalP r)).isEmpty
    · rw [if_pos hflt] at h
      cases h
      rfl
    · rw [if_neg hflt] at h
      exact ih _ e h

theorem filterPoliciesByEvalResources_error (remoteFails : Bool)
    (evalP : ρ → α → Bool) (rs : List ρ) (ps : List α) (e : PDPError)
    (h : filterPoliciesByEvalResources remoteFails evalP rs ps = .error e) :
    e = .noPolicies ∨ e = .remoteResourceFail := by
  rw [filterPoliciesByEvalResources] at h
  by_cases hrf : remoteFails = true
  · rw [if_pos hrf] at h
    cases h
    exact Or.inr rfl
  · rw [if_neg hrf] at h
    exact Or.inl (filterPoliciesFold_error evalP rs ps e h)

/-! ### C3: Eval truth vs surviving-policies non-emptiness -/

/-- C3 as stated is false: with the empty policy list and the empty
resource list, `pdp.EvalPolicies` returns `true` (the fold never runs so
`ErrNoPolicies` is never raised), yet the surviving policy list is empty,
so "Eval(P,R) is true iff the surviving list is non-empty" fails there. -/
theorem c3_counterexample :
    (EvalPolicies false (fun (_ : Unit) (_ : Unit) => true) [] []).1 = true ∧
    survivors (fun (_ : Unit) (_ : Unit) => true) [] ([] : List Unit) = [] ∧
    ¬ (((EvalPolicies false (fun (_ : Unit) (_ : Unit) => true) [] []).1 = true)
        ↔ survivors (fun (_ : Unit) (_ : Unit) => true) [] ([] : List Unit) ≠ []) := by
  decide

/-- C3 (amended): for every per-policy verdict, resource list and policy
list, except the simultaneously empty policy and resource lists (and
absent a remote-attribute failure), `pdp.EvalPolicies` returns `true` iff
the repeated filter of `filterPoliciesByEvalResources` leaves a non-empty
surviving policy list. -/
theorem c3_eval_iff_survivors {ρ α : Type} (evalP : ρ → α → Bool)
    (resources : List ρ) (policies : List α)
    (h : policies ≠ [] ∨ resources ≠ []) :
    (EvalPolicies false evalP resources policies).1 = true ↔
      survivors evalP resources policies ≠ [] := by
  by_cases hp : policies = []
  · subst hp
    have hres : resources ≠ [] := h.resolve_left (fun hc => hc rfl)
    match resources with
    | [] => exact absurd rfl hres
    | r :: rs =>
      rw [survivors_cons, List.filter_nil, survivors_nil]
      have : EvalPolicies false evalP (r :: rs) ([] : List α) = (false, none) := by
        rw [EvalPolicies, filterPoliciesByEvalResources, if_neg (by simp),
          filterPoliciesFold]
        simp
      rw [this]
      simp
  · rcases filterPoliciesFold_spec evalP resources policies hp with
      ⟨h1, h2⟩ | ⟨h1, h2⟩
    · rw [EvalPolicies, filterPoliciesByEvalResources, if_neg (by simp), h1]
      simp [h2]
    · rw [EvalPolicies, filterPoliciesByEvalResources, if_neg (by simp), h1]
      simp [h2]

theorem c3_witness :
    (([0] : List Nat) ≠ [] ∨ ([] : List Nat) ≠ []) ∧
    ((EvalPolicies false (fun (_ : Nat) (_ : Nat) => true) [] [0]).1 = true ↔
      survivors (fun (_ : Nat) (_ : Nat) => true) [] [0] ≠ []) :=
  ⟨Or.inl (by decide),
    c3_eval_iff_survivors (fun _ _ => true) [] [0] (Or.inl (by decide))⟩

/-! ### C5: subject-not-found behaviour of the three entrances -/

/-- C5: when the subject-pk lookup reports not-found (after a successful
action fill and resource validation), `Eval` denies with a nil error,
`Query` answers the empty object with a nil error, and
`QueryAuthPolicies` surfaces `ErrSubjectNotExists`. -/
theorem c5_subject_not_exists {ρ α : Type} (wcr : Bool) (env : PDPEnv ρ α)
    (hact : env.actionOutcome = .found) (hval : env.validateOk = true)
    (hsub : env.subjectOutcome = .notFound) :
    Eval env = (false, none) ∧
    Query wcr env = .ok .emptyPolicies ∧
    QueryAuthPolicies env = .error .subjectNotExists := by
  refine ⟨?_, ?_, ?_⟩
  · rw [Eval, hact, hval, hsub]
    simp
  · rw [Query, queryFilterPolicies, hact, hval, hsub]
    simp
  · rw [QueryAuthPolicies, hact, hsub]

theorem c5_witness :
    Eval subjectMissingEnv = (false, none) ∧
    Query true subjectMissingEnv = .ok .emptyPolicies ∧
    QueryAuthPolicies subjectMissingEnv = .error .subjectNotExists :=
  c5_subject_not_exists true subjectMissingEnv rfl rfl rfl

/-! ### C6: the NoPolicies signal never escapes Eval or Query -/

theorem eval_snd_ne_noPolicies {ρ α : Type} (env : PDPEnv ρ α) :
    (Eval env).2 ≠ some PDPError.noPolicies := by
  unfold Eval
  split
  · simp
  · simp
  · split
    · simp
    · split
      · simp
      · simp
      · split
        · split
          · simp
          · rename_i he
            intro hc
            exact he (Option.some.inj hc)
        · split
          · simp
          · split
            · split
              · simp
              · rename_i he
                intro hc
                exact he (Option.some.inj hc)
            · simp

theorem queryFilterPolicies_error_ne_noPolicies {ρ α : Type} (wcr : Bool)
    (env : PDPEnv ρ α) (e : PDPError)
    (h : queryFilterPolicies wcr env = .error e) : e ≠ PDPError.noPolicies := by
  unfold queryFilterPolicies at h
  split at h
  · cases h
    simp
  · cases h
    simp
  · split at h
    · cases h
      simp
    · split at h
      · cases h
      · cases h
        simp
      · split at h
        · split at h
          · cases h
          · rename_i he2
            cases h
            exact he2
        · split at h
          · split at h
            · cases h
            · rename_i he2
              cases h
              exact he2
          · cases h

theorem query_ne_error_noPolicies {ρ α : Type} (wcr : Bool)
    (env : PDPEnv ρ α) : Query wcr env ≠ .error PDPError.noPolicies := by
  unfold Query
  split
  · rename_i e hq
    have hne := queryFilterPolicies_error_ne_noPolicies wcr env e hq
    intro hc
    exact hne (by
      cases hc
      rfl)
  · split
    · simp
    · split
      · simp
      · simp

/-- C6: the internal NoPolicies signal — raised when the retrieved policy
list is empty or the surviving set of the filtering fold becomes empty —
is never returned by `Eval` or `Query`; whenever it arises, `Eval`
answers the decision `(false, nil)` and `Query` answers the empty object
with a nil error. -/
theorem c6_noPolicies_converted {ρ α : Type} :
    (∀ env : PDPEnv ρ α, (Eval env).2 ≠ some PDPError.noPolicies) ∧
    (∀ (wcr : Bool) (env : PDPEnv ρ α),
      Query wcr env ≠ .error PDPError.noPolicies) ∧
    (∀ (wcr : Bool) (env : PDPEnv ρ α) (ps : List α),
      env.actionOutcome = .found → env.validateOk = true →
      env.subjectOutcome = .found → env.policies = .ok ps →
      env.hasSingleLocalResource = false →
      (ps = [] ∨ filterPoliciesByEvalResources env.remoteFails env.evalP
        env.resources ps = .error .noPolicies) →
      Eval env = (false, none) ∧ Query wcr env = .ok .emptyPolicies) := by
  refine ⟨eval_snd_ne_noPolicies, query_ne_error_noPolicies, ?_⟩
  intro wcr env ps hact hval hsub hpol hsingle harises
  have hq : queryPolicies env =
      (if ps.isEmpty then .error .noPolicies else .ok ps) := by
    rw [queryPolicies, hpol]
  rcases harises with hempty | hfold
  · subst hempty
    constructor
    · rw [Eval, hact, hval, hsub]
      simp [hq]
    · rw [Query, queryFilterPolicies, hact, hval, hsub]
      simp [hq]
  · by_cases hempty : ps.isEmpty
    · have hps : ps = [] := List.isEmpty_iff.mp hempty
      subst hps
      constructor
      · rw [Eval, hact, hval, hsub]
        simp [hq]
      · rw [Query, queryFilterPolicies, hact, hval, hsub]
        simp [hq]
    · rw [if_neg hempty] at hq
      constructor
      · rw [Eval, hact, hval, hsub]
        simp [hq, hsingle, hfold]
      · rw [Query, queryFilterPolicies, hact, hval, hsub]
        simp [hq, hfold]

theorem c6_witness :
    Eval noPoliciesEnv = (false, none) ∧
    Query false noPoliciesEnv = .ok .emptyPolicies :=
  c6_noPolicies_converted.2.2 false noPoliciesEnv [7] rfl rfl rfl rfl rfl
    (Or.inr rfl)

/-! ### C1: cache invalidation versus the storage write -/

/-- C1 is false as stated: on a run of `AlterCustomPolicies` whose storage
write returns an error after the pre-queries succeed, the `defer`red
policy-cache invalidation for `(system, subject_pk)` still executes, so
"when the storage write returns an error, no cache invalidation takes
place" fails at this input. -/
theorem c1_counterexample :
    (AlterCustomPolicies "bk_job" crudWriteFailEnv).1 = false ∧
    CrudEvent.storageWrite false ∈ (AlterCustomPolicies "bk_job" crudWriteFailEnv).2 ∧
    CrudEvent.delPolicyCache "bk_job" 1 ∈ (AlterCustomPolicies "bk_job" crudWriteFailEnv).2 := by
  decide

/-- C1 (amended): for every policy-mutating operation the policy-cache
invalidation for `(system, subject_pk)` never runs before the storage
write — every trace containing it starts with the write attempt — and
once the pre-write steps succeed it runs on every exit, on failed writes
as well as committed ones; only a failure before the `defer` registration
(subject/action lookup, conversion, or `DeleteByIDs` with an empty id
list) skips invalidation. -/
theorem c1_invalidation_discipline :
    (∀ (systemID : String) (env : CrudEnv) (s : String) (pk : Int),
      CrudEvent.delPolicyCache s pk ∈ (AlterCustomPolicies systemID env).2 →
      (AlterCustomPolicies systemID env).2.head? =
        some (CrudEvent.storageWrite (AlterCustomPolicies systemID env).1)) ∧
    (∀ (system : String) (flag : Bool) (env : CrudEnv) (s : String) (pk : Int),
      CrudEvent.delPolicyCache s pk ∈ (DeleteByIDs system flag env).2 →
      (DeleteByIDs system flag env).2.head? =
        some (CrudEvent.storageWrite (DeleteByIDs system flag env).1)) ∧
    (∀ (systemID : String) (env : CrudEnv) (s : String) (pk : Int),
      CrudEvent.delPolicyCache s pk ∈ (UpdateTemplatePolicies systemID env).2 →
      (UpdateTemplatePolicies systemID env).2.head? =
        some (CrudEvent.storageWrite (UpdateTemplatePolicies systemID env).1)) ∧
    (∀ (systemID : String) (env : CrudEnv) (s : String) (pk : Int),
      CrudEvent.delPolicyCache s pk ∈ (DeleteTemplatePolicies systemID env).2 →
      (DeleteTemplatePolicies systemID env).2.head? =
        some (CrudEvent.storageWrite (DeleteTemplatePolicies systemID env).1)) ∧
    (∀ (systemID : String) (env : CrudEnv) (pk : Int),
      querySubjectActionForAlterPolicies env = some pk →
      env.convertCreateOk = true → env.convertUpdateOk = true →
      CrudEvent.delPolicyCache systemID pk ∈ (AlterCustomPolicies systemID env).2) ∧
    (∀ (system : String) (env : CrudEnv) (pk : Int),
      env.getPKResult = some pk →
      CrudEvent.delPolicyCache system pk ∈ (DeleteByIDs system true env).2) ∧
    (∀ (systemID : String) (env : CrudEnv) (pk : Int),
      querySubjectActionForAlterPolicies env = some pk →
      env.convertUpdateOk = true →
      CrudEvent.delPolicyCache systemID pk ∈ (UpdateTemplatePolicies systemID env).2) ∧
    (∀ (systemID : String) (env : CrudEnv) (pk : Int),
      env.getPKResult = some pk →
      CrudEvent.delPolicyCache systemID pk ∈ (DeleteTemplatePolicies systemID env).2) := by
  refine ⟨?_, ?_, ?_, ?_, ?_, ?_, ?_, ?_⟩
  · intro systemID env s pk hmem
    obtain ⟨gpk, la, lart, cc, cu, wr⟩ := env
    cases gpk <;> cases la <;> cases lart <;> cases cc <;> cases cu <;>
      cases wr <;>
      simp_all [AlterCustomPolicies, querySubjectActionForAlterPolicies]
  · intro system flag env s pk hmem
    obtain ⟨gpk, la, lart, cc, cu, wr⟩ := env
    cases gpk <;> cases flag <;> cases wr <;>
      simp_all [DeleteByIDs]
  · intro systemID env s pk hmem
    obtain ⟨gpk, la, lart, cc, cu, wr⟩ := env
    cases gpk <;> cases la <;> cases lart <;> cases cu <;> cases wr <;>
      simp_all [UpdateTemplatePolicies, querySubjectActionForAlterPolicies]
  · intro systemID env s pk hmem
    obtain ⟨gpk, la, lart, cc, cu, wr⟩ := env
    cases gpk <;> cases wr <;>
      simp_all [DeleteTemplatePolicies]
  · intro systemID env pk hq hcc hcu
    obtain ⟨gpk, la, lart, cc, cu, wr⟩ := env
    cases gpk <;> cases la <;> cases lart <;> cases wr <;>
      simp_all [AlterCustomPolicies, querySubjectActionForAlterPolicies]
  · intro system env pk hpk
    obtain ⟨gpk, la, lart, cc, cu, wr⟩ := env
    cases gpk <;> cases wr <;>
      simp_all [DeleteByIDs]
  · intro systemID env pk hq hcu
    obtain ⟨gpk, la, lart, cc, cu, wr⟩ := env
    cases gpk <;> cases la <;> cases lart <;> cases wr <;>
      simp_all [UpdateTemplatePolicies, querySubjectActionForAlterPolicies]
  · intro systemID env pk hpk
    obtain ⟨gpk, la, lart, cc, cu, wr⟩ := env
    cases gpk <;> cases wr <;>
      simp_all [DeleteTemplatePolicies]

theorem c1_witness :
    CrudEvent.delPolicyCache "bk_job" 1 ∈
      (AlterCustomPolicies "bk_job" crudWriteFailEnv).2 ∧
    (AlterCustomPolicies "bk_job" crudWriteFailEnv).2.head? =
      some (CrudEvent.storageWrite (AlterCustomPolicies "bk_job" crudWriteFailEnv).1) :=
  have hmem := c1_invalidation_discipline.2.2.2.2.1 "bk_job" crudWriteFailEnv 1
    rfl rfl rfl
  ⟨hmem, c1_invalidation_discipline.1 "bk_job" crudWriteFailEnv "bk_job" 1 hmem⟩

/-! ### C2 and C9: the merge within one OR's content -/

/-- C2 is false as stated: on the content
`[in(host.id,[abc,def]), AND[], eq(host.id,abc)]` — the repository's own
"merge part" unit test — the first mergeable entry sits at position 0,
but the merged `in` leaf is emitted after the non-mergeable `AND` cell,
so "the merged leaf takes the position of the first mergeable entry"
fails at this input. -/
theorem c2_counterexample :
    mergeContentField
      [ .leaf "in" "host.id" (.list [.s "abc", .s "def"]),
        .node "AND" [],
        .leaf "eq" "host.id" (.scalar (.s "abc"))] =
      [ .node "AND" [],
        .leaf "in" "host.id" (.list [.s "abc", .s "def", .s "abc"])] ∧
    (mergeContentField
      [ .leaf "in" "host.id" (.list [.s "abc", .s "def"]),
        .node "AND" [],
        .leaf "eq" "host.id" (.scalar (.s "abc"))]).head? ≠
      some (ExprCell.leaf "in" "host.id" (.list [.s "abc", .s "def", .s "abc"])) := by
  decide

/-- C2 (amended): in `mergeContentField`, leaves sharing a field with op
`eq`/`in` are collapsed into a single `in` leaf whose value list
concatenates the values in input order, the non-mergeable cells keep
their original relative order, and the collapsed leaves are emitted after
all non-mergeable cells — one per field in first-occurrence order — not
at the position of the first mergeable entry. -/
theorem c2_merge_structure (content : List ExprCell) :
    mergeContentField content = specMerge content :=
  mergeContentField_eq_specMerge content

/-- C9: `mergeContentField` is idempotent — applying the merge to an
already-merged content list returns it unchanged. -/
theorem c9_merge_idempotent (content : List ExprCell) :
    mergeContentField (mergeContentField content) = mergeContentField content :=
  mergeContentField_idem_aux content

/-! ### C4: the effective subject pk list -/

/-- C4: a successful `getEffectSubjectPKs` returns the subject's own pk
first, followed by the first-seen-order deduplication of the valid
(strictly unexpired) direct group pks and the valid department-inherited
group pks; the tail carries no duplicates, and a department pk distinct
from the subject pk and from every valid group pk never appears. -/
theorem c4_effect_subject_pks (now : Int)
    (svc : List Int → Option (List SubjectGroup)) (s : SubjectAttrs)
    (out : List Int) (h : getEffectSubjectPKs now svc s = some out) :
    out.head? = some s.pk ∧
    out = s.pk ::
      firstDedup (getEffectGroupPKs now s ++ inheritValidPKs now svc s) ∧
    out.tail.Nodup ∧
    (∀ d ∈ s.departments, d ≠ s.pk → d ∉ getEffectGroupPKs now s →
      d ∉ inheritValidPKs now svc s → d ∉ out) := by
  have hout : out = s.pk ::
      firstDedup (getEffectGroupPKs now s ++ inheritValidPKs now svc s) := by
    by_cases hdep : s.departments.isEmpty
    · simp only [getEffectSubjectPKs, hdep, if_pos, inheritValidPKs] at h ⊢
      exact (Option.some.inj h).symm
    · cases hsvc : svc s.departments with
      | none =>
        simp only [getEffectSubjectPKs, hdep, hsvc, if_neg] at h
        cases h
      | some sgs =>
        simp only [getEffectSubjectPKs, hdep, hsvc, if_neg,
          Bool.not_eq_true] at h
        rw [inheritValidPKs, if_neg (by simp [hdep]), hsvc]
        rw [firstDedup_append_firstDedup] at h
        exact (Option.some.inj h).symm
  refine ⟨by rw [hout]; rfl, hout, by rw [hout]; exact firstDedup_nodup _, ?_⟩
  intro d _ hdpk hdirect hinherit hc
  rw [hout] at hc
  rcases List.mem_cons.mp hc with hd | hd
  · exact hdpk hd
  · rcases List.mem_append.mp ((mem_firstDedup _).mp hd) with hd | hd
    · exact hdirect hd
    · exact hinherit hd

theorem c4_witness :
    [1, 2, 4].head? = some c4Subject.pk ∧
    [1, 2, 4] = c4Subject.pk :: firstDedup (getEffectGroupPKs 100 c4Subject ++
      inheritValidPKs 100 c4Svc c4Subject) ∧
    ([1, 2, 4] : List Int).tail.Nodup ∧
    (∀ d ∈ c4Subject.departments, d ≠ c4Subject.pk →
      d ∉ getEffectGroupPKs 100 c4Subject →
      d ∉ inheritValidPKs 100 c4Svc c4Subject → d ∉ ([1, 2, 4] : List Int)) :=
  c4_effect_subject_pks 100 c4Svc c4Subject [1, 2, 4] (by decide)

/-! ### C7: empty or fully-dropped expressions translate to the any cell -/

theorem collectContent_all_dropped (translateElem : ResourceExpr → Option ExprCell)
    (resourceTypeSet : List String) :
    ∀ exprs : List ResourceExpr,
      (∀ e ∈ exprs, (e.system ++ ":" ++ e.type) ∉ resourceTypeSet) →
      collectContent translateElem resourceTypeSet exprs = some [] := by
  intro exprs
  induction exprs with
  | nil => intro _; rfl
  | cons e rest ih =>
    intro hdrop
    rw [collectContent, if_neg (hdrop e (List.mem_cons_self e rest))]
    exact ih (fun e2 he2 => hdrop e2 (List.mem_cons_of_mem e he2))

/-- C7: `PolicyTranslate` yields exactly the universal cell
`{op: "any", field: "", value: []}` for the stored expression strings
`""` and `"[]"`, and for every parsed expression all of whose elements
have a `(system, type)` outside the requested resource-type set —
whatever the requested types and the per-element translator are. -/
theorem c7_any_translation (parse : String → Option (List ResourceExpr))
    (translateElem : ResourceExpr → Option ExprCell) (s : String)
    (resourceTypeSet : List String) :
    ((s = "" ∨ s = "[]") →
      PolicyTranslate parse translateElem s resourceTypeSet =
        some anyExpressionCell) ∧
    (∀ exprs, parse s = some exprs →
      (∀ e ∈ exprs, (e.system ++ ":" ++ e.type) ∉ resourceTypeSet) →
      PolicyTranslate parse translateElem s resourceTypeSet =
        some anyExpressionCell) := by
  constructor
  · intro h
    rw [PolicyTranslate, if_pos h]
  · intro exprs hp hdrop
    by_cases hs : s = "" ∨ s = "[]"
    · rw [PolicyTranslate, if_pos hs]
    · rw [PolicyTranslate, if_neg hs]
      simp only [hp,
        collectContent_all_dropped translateElem resourceTypeSet exprs hdrop]

theorem c7_witness :
    (PolicyTranslate (fun _ => some [⟨"bk_cmdb", "host"⟩]) (fun _ => none)
      "" ["bk_test:job"] = some anyExpressionCell) ∧
    (PolicyTranslate (fun _ => some [⟨"bk_cmdb", "host"⟩]) (fun _ => none)
      "x" ["bk_test:job"] = some anyExpressionCell) :=
  ⟨(c7_any_translation (fun _ => some [⟨"bk_cmdb", "host"⟩]) (fun _ => none)
      "" ["bk_test:job"]).1 (Or.inl rfl),
   (c7_any_translation (fun _ => some [⟨"bk_cmdb", "host"⟩]) (fun _ => none)
      "x" ["bk_test:job"]).2 [⟨"bk_cmdb", "host"⟩] rfl (by decide)⟩

/-! ### C8: attribute-fetch errors stay inside the leaf -/

theorem evalAny_eq_any (g : String → AttrResult) (cs : List Condition) :
    Condition.evalAny g cs = cs.any (fun c => Condition.eval g c) := by
  induction cs with
  | nil => rfl
  | cons c cs ih =>
    rw [Condition.evalAny, List.any_cons, ih]

theorem evalAll_eq_all (g : String → AttrResult) (cs : List Condition) :
    Condition.evalAll g cs = cs.all (fun c => Condition.eval g c) := by
  induction cs with
  | nil => rfl
  | cons c cs ih =>
    rw [Condition.evalAll, List.all_cons, ih]

/-- C8: a leaf whose attribute fetch errors (which in this codebase is
also how a missing attribute is reported) evaluates to `false`; the error
is never propagated upward — an OR containing such a leaf evaluates
exactly as the OR without it, an AND containing it is `false` — and the
AND/OR composites combine only the boolean values of their children. -/
theorem c8_fetch_error_is_false (g : String → AttrResult) (key : String)
    (values : List Scalar) (fn : Scalar → Scalar → Bool)
    (h : g key = .err) :
    Condition.eval g (.leaf key values fn) = false ∧
    (∀ rest, Condition.eval g (.or (.leaf key values fn :: rest)) =
      Condition.eval g (.or rest)) ∧
    (∀ rest, Condition.eval g (.and (.leaf key values fn :: rest)) = false) ∧
    (∀ cs, Condition.eval g (.or cs) =
      cs.any (fun c => Condition.eval g c)) ∧
    (∀ cs, Condition.eval g (.and cs) =
      cs.all (fun c => Condition.eval g c)) := by
  have hleaf : Condition.eval g (.leaf key values fn) = false := by
    rw [Condition.eval, forOr, h]
  refine ⟨hleaf, ?_, ?_, ?_, ?_⟩
  · intro rest
    rw [Condition.eval, Condition.evalAny, hleaf, Bool.false_or]
    rw [Condition.eval]
  · intro rest
    rw [Condition.eval, Condition.evalAll, hleaf, Bool.false_and]
  · intro cs
    rw [Condition.eval, evalAny_eq_any]
  · intro cs
    rw [Condition.eval, evalAll_eq_all]

theorem c8_witness :
    c8GetAttr "missing" = .err ∧
    Condition.eval c8GetAttr
      (.leaf "missing" [.s "prod"] (fun a b => a == b)) = false ∧
    Condition.eval c8GetAttr
      (.or [.leaf "missing" [.s "prod"] (fun a b => a == b),
            .leaf "env" [.s "prod"] (fun a b => a == b)]) =
      Condition.eval c8GetAttr
        (.or [.leaf "env" [.s "prod"] (fun a b => a == b)]) ∧
    Condition.eval c8GetAttr
      (.and [.leaf "missing" [.s "prod"] (fun a b => a == b),
             .leaf "env" [.s "prod"] (fun a b => a == b)]) = false :=
  have hth := c8_fetch_error_is_false c8GetAttr "missing" [.s "prod"]
    (fun a b => a == b) rfl
  ⟨rfl, hth.1,
    hth.2.1 [.leaf "env" [.s "prod"] (fun a b => a == b)],
    hth.2.2.1 [.leaf "env" [.s "prod"] (fun a b => a == b)]⟩

/-! ### C10: renewal is monotone non-decreasing -/

theorem daoRelationLookup_mem {rels : List SubjectRelation} {spk : Int}
    {rel : SubjectRelation} (h : daoRelationLookup rels spk = some rel) :
    rel ∈ rels := by
  rw [daoRelationLookup] at h
  exact List.mem_reverse.mp (List.mem_of_find?_eq_some h)

theorem bulkGen_updates_sound (parentPK : Int) (m : String → Int)
    (relMap : Int → Option SubjectRelation) (flag : Bool) :
    ∀ (l : List DaoSubject) (acc : BulkGenResult),
      (∀ u ∈ acc.updateRelations, ∃ rel spk, relMap spk = some rel ∧
        rel.pk = u.pk ∧ rel.policyExpiredAt < u.policyExpiredAt) →
      ∀ u ∈ (l.foldl (bulkGenStep parentPK m relMap flag) acc).updateRelations,
        ∃ rel spk, relMap spk = some rel ∧ rel.pk = u.pk ∧
          rel.policyExpiredAt < u.policyExpiredAt := by
  intro l
  induction l with
  | nil =>
    intro acc hacc u hu
    exact hacc u hu
  | cons s l ih =>
    intro acc hacc
    rw [List.foldl_cons]
    refine ih _ ?_
    intro u hu
    unfold bulkGenStep at hu
    split at hu
    · rename_i daoRelation heq
      split at hu
      · rename_i hlt
        simp only at hu
        rcases List.mem_append.mp hu with hu | hu
        · exact hacc u hu
        · rcases List.mem_singleton.mp hu with rfl
          exact ⟨daoRelation, s.pk, heq, rfl, hlt⟩
      · exact hacc u hu
    · split at hu
      · simp only at hu
        exact hacc u hu
      · exact hacc u hu

theorem mem_computeUpdatePolicies {subjectPK : Int}
    {policies : List PolicyPKExpiredAt} {stored : List QueryPolicy} :
    ∀ q ∈ computeUpdatePolicies subjectPK policies stored,
      ∃ p ∈ stored, p.subjectPK = subjectPK ∧
        p.expiredAt < idExpiredAtMap policies p.pk ∧
        q = { p with expiredAt := idExpiredAtMap policies p.pk } := by
  intro q hq
  rw [computeUpdatePolicies, List.mem_filterMap] at hq
  rcases hq with ⟨p, hp, hfp⟩
  by_cases hc : p.subjectPK = subjectPK ∧
      p.expiredAt < idExpiredAtMap policies p.pk
  · rw [if_pos hc] at hfp
    exact ⟨p, hp, hc.1, hc.2, (Option.some.inj hfp).symm⟩
  · rw [if_neg hc] at hfp
    cases hfp

/-- C10: `UpdateSubjectPoliciesExpiredAt` updates a stored policy only
when it belongs to the given subject and its current `expired_at` is
strictly below the supplied value, and when no policy qualifies it
returns nil without touching storage or the cache; likewise
`bulkCreateOrUpdateSubjectMembers` updates an existing member relation
only when the stored `policy_expired_at` is strictly below the supplied
one — so no renewal ever shortens an expiry. -/
theorem c10_renewal_monotone :
    (∀ (subjectPK : Int) (policies : List PolicyPKExpiredAt)
        (stored : List QueryPolicy),
      ∀ q ∈ computeUpdatePolicies subjectPK policies stored,
        ∃ p ∈ stored, p.subjectPK = subjectPK ∧
          p.expiredAt < idExpiredAtMap policies p.pk ∧
          q = { p with expiredAt := idExpiredAtMap policies p.pk }) ∧
    (∀ (policies : List PolicyPKExpiredAt) (env : RenewEnv)
        (subjectPK : Int) (stored : List QueryPolicy),
      env.getPKResult = some subjectPK →
      env.storedResult = some stored →
      computeUpdatePolicies subjectPK policies stored = [] →
      UpdateSubjectPoliciesExpiredAt policies env = (true, [])) ∧
    (∀ (parentPK : Int) (subs : List SubjectWithExpiredAt)
        (rels : List SubjectRelation) (daos : List DaoSubject) (flag : Bool),
      ∀ u ∈ (bulkCreateOrUpdateSubjectMembers parentPK subs rels daos
          flag).updateRelations,
        ∃ rel, rel ∈ rels ∧ rel.pk = u.pk ∧
          rel.policyExpiredAt < u.policyExpiredAt) := by
  refine ⟨fun _ _ _ => mem_computeUpdatePolicies, ?_, ?_⟩
  · intro policies env subjectPK stored hpk hstored hnil
    simp [UpdateSubjectPoliciesExpiredAt, hpk, hstored, hnil]
  · intro parentPK subs rels daos flag u hu
    have hsound := bulkGen_updates_sound parentPK
      (genSubjectExpiredAtMap subs) (daoRelationLookup rels) flag daos
      ⟨[], [], [], 0, 0⟩ (fun u hu => absurd hu (by simp)) u hu
    rcases hsound with ⟨rel, spk, hfind, hpk2, hlt⟩
    exact ⟨rel, daoRelationLookup_mem hfind, hpk2, hlt⟩

theorem c10_witness :
    (∃ p ∈ [(⟨1, 9, 0, 0, 5⟩ : QueryPolicy)], p.subjectPK = 9 ∧
      p.expiredAt < idExpiredAtMap [⟨1, 10⟩] p.pk ∧
      (⟨1, 9, 0, 0, 10⟩ : QueryPolicy) =
        { p with expiredAt := idExpiredAtMap [⟨1, 10⟩] p.pk }) ∧
    UpdateSubjectPoliciesExpiredAt [⟨1, 10⟩]
      ⟨some 9, some [⟨1, 9, 0, 0, 50⟩], some ["iam"], true⟩ = (true, []) ∧
    (∃ rel, rel ∈ [(⟨11, 5, 7, 100⟩ : SubjectRelation)] ∧ rel.pk = 11 ∧
      rel.policyExpiredAt <
        (⟨11, 200⟩ : SubjectRelationPKPolicyExpiredAt).policyExpiredAt) :=
  ⟨c10_renewal_monotone.1 9 [⟨1, 10⟩] [⟨1, 9, 0, 0, 5⟩] ⟨1, 9, 0, 0, 10⟩
      (by decide),
   c10_renewal_monotone.2.1 [⟨1, 10⟩]
      ⟨some 9, some [⟨1, 9, 0, 0, 50⟩], some ["iam"], true⟩ 9
      [⟨1, 9, 0, 0, 50⟩] rfl rfl (by decide),
   c10_renewal_monotone.2.2 7 [⟨"user", "u1", 200⟩] [⟨11, 5, 7, 100⟩]
      [⟨5, "user", "u1"⟩] false ⟨11, 200⟩ (by decide)⟩

end BkIam
